import Mathlib

/-!
Verification of quayctl (github.com/coreos/quayctl) against its
natural-language specification.

Each section embeds the relevant Go definitions shallowly in Lean:
pure functions become Lean functions, stateful code becomes explicit
state passing, Go maps become association lists or total functions with
zero values, fallible operations return `Option`/`Except`, and external
collaborators (the libtorrent bindings, HTTP, the Docker engine, the
bencode and JSON libraries, the file system) are oracle parameters.
-/

/- ### `dockerclient/channeledrw.go`: the channel-backed reader-writer -/

/-- The buffered-channel capacity fixed by `newChanneledRW`
(`make(chan byte, 1024*1024*1024)`). -/
def chanCap : Nat := 1024 * 1024 * 1024

/-- State of a `channeledrw`: the byte channel is modelled as its queued
contents (`buffer`) together with its closed flag, and `count` mirrors the
`count` field, the number of bytes delivered to readers so far. -/
structure Channeledrw where
  buffer : List Nat
  closed : Bool
  count : Nat
deriving Repr, DecidableEq

/-- `newChanneledRW()`: empty channel, open, zero read count. -/
def Channeledrw.new : Channeledrw := ⟨[], false, 0⟩

/-- `Write(p)`: sends every byte of `p` on the channel, in order, and returns
`len(p)`. A send on a closed channel panics, and with no concurrent reader a
send blocks forever once the channel holds `chanCap` bytes; both abnormal
outcomes are `none`. -/
def Channeledrw.write (c : Channeledrw) (p : List Nat) : Option (Channeledrw × Nat) :=
  if c.closed then none
  else if c.buffer.length + p.length ≤ chanCap then
    some ({ c with buffer := c.buffer ++ p }, p.length)
  else none

/-- `DoneWriting()`: closes the channel (closing twice panics: `none`). -/
def Channeledrw.doneWriting (c : Channeledrw) : Option Channeledrw :=
  if c.closed then none else some { c with closed := true }

/-- `Read(p)` with `len(p) = n`: receives bytes one at a time into `p`,
incrementing `count` per byte; when a receive reports the channel closed and
drained it returns the bytes read so far together with `io.EOF` (the `Bool`
component). A receive on an open empty channel blocks (`none`). -/
def Channeledrw.read (c : Channeledrw) (n : Nat) : Option (List Nat × Bool × Channeledrw) :=
  if n ≤ c.buffer.length then
    some (c.buffer.take n, false,
      { c with buffer := c.buffer.drop n, count := c.count + n })
  else if c.closed then
    some (c.buffer, true,
      { c with buffer := [], count := c.count + c.buffer.length })
  else none

/-- `ReadCount()`. -/
def Channeledrw.readCount (c : Channeledrw) : Nat := c.count

/-- A sequence of `Write` calls. -/
def Channeledrw.writeList : Channeledrw → List (List Nat) → Option Channeledrw
  | c, [] => some c
  | c, p :: ps => (c.write p).bind fun r => Channeledrw.writeList r.1 ps

/-- A sequence of `Write` calls on a fresh `channeledrw` followed by
`DoneWriting`. -/
def Channeledrw.writeSeq (ps : List (List Nat)) : Option Channeledrw :=
  (Channeledrw.writeList Channeledrw.new ps).bind Channeledrw.doneWriting

/-- A consumer issuing one `Read` per element of `sizes` (the buffer lengths it
passes); collects all delivered bytes and whether some read returned `io.EOF`. -/
def Channeledrw.runReads (c : Channeledrw) : List Nat → Option (List Nat × Bool × Channeledrw)
  | [] => some ([], false, c)
  | n :: ns =>
    (c.read n).bind fun d =>
      (d.2.2.runReads ns).bind fun d2 =>
        some (d.1 ++ d2.1, d.2.1 || d2.2.1, d2.2.2)

theorem Channeledrw.writeFold (ps : List (List Nat)) : ∀ (buf : List Nat) (cnt : Nat),
    buf.length + ps.flatten.length ≤ chanCap →
    Channeledrw.writeList ⟨buf, false, cnt⟩ ps = some ⟨buf ++ ps.flatten, false, cnt⟩ := by
  induction ps with
  | nil => intro buf cnt _; simp [Channeledrw.writeList]
  | cons p ps ih =>
    intro buf cnt hlen
    rw [List.flatten_cons, List.length_append] at hlen
    have hstep : Channeledrw.write ⟨buf, false, cnt⟩ p =
        some (⟨buf ++ p, false, cnt⟩, p.length) := by
      unfold Channeledrw.write
      simp only [Bool.false_eq_true, if_false]
      rw [if_pos (by simpa using by omega)]
    unfold Channeledrw.writeList
    rw [hstep, Option.some_bind]
    rw [ih (buf ++ p) cnt (by rw [List.length_append]; omega)]
    rw [List.flatten_cons, List.append_assoc]

theorem Channeledrw.writeSeq_eq (ps : List (List Nat))
    (h : ps.flatten.length ≤ chanCap) :
    Channeledrw.writeSeq ps = some ⟨ps.flatten, true, 0⟩ := by
  unfold Channeledrw.writeSeq
  rw [show Channeledrw.new = ⟨[], false, 0⟩ from rfl,
    Channeledrw.writeFold ps [] 0 (by simpa using h)]
  simp [Channeledrw.doneWriting]

theorem Channeledrw.read_closed (c : Channeledrw) (n : Nat) (hc : c.closed = true) :
    ∃ bs e c2, c.read n = some (bs, e, c2) ∧
      bs ++ c2.buffer = c.buffer ∧ c2.count = c.count + bs.length ∧
      c2.closed = true ∧ (e = true → c2.buffer = []) ∧
      (c.buffer.length < n → e = true) := by
  by_cases hn : n ≤ c.buffer.length
  · refine ⟨c.buffer.take n, false,
      { c with buffer := c.buffer.drop n, count := c.count + n }, ?_, ?_, ?_, hc,
      by simp, fun hlt => absurd hlt (Nat.not_lt.mpr hn)⟩
    · unfold Channeledrw.read; rw [if_pos hn]
    · exact List.take_append_drop n c.buffer
    · show c.count + n = c.count + (c.buffer.take n).length
      rw [List.length_take]; omega
  · refine ⟨c.buffer, true,
      { c with buffer := [], count := c.count + c.buffer.length }, ?_,
      by simp, rfl, hc, fun _ => rfl, fun _ => rfl⟩
    unfold Channeledrw.read; rw [if_neg hn, if_pos hc]

theorem Channeledrw.runReads_closed (sizes : List Nat) : ∀ (c : Channeledrw),
    c.closed = true →
    ∃ ds e c2, c.runReads sizes = some (ds, e, c2) ∧
      ds ++ c2.buffer = c.buffer ∧ c2.count = c.count + ds.length ∧
      c2.closed = true ∧ (e = true → c2.buffer = []) ∧
      (c.buffer.length < sizes.sum → e = true) := by
  induction sizes with
  | nil =>
    intro c hc
    exact ⟨[], false, c, rfl, rfl, by simp, hc, by simp, by simp⟩
  | cons n ns ih =>
    intro c hc
    obtain ⟨bs, e, c1, hr, hbuf, hcount, hc1, he, hfull⟩ := Channeledrw.read_closed c n hc
    obtain ⟨ds, e2, c2, hr2, hbuf2, hcount2, hc2, he2, hfull2⟩ := ih c1 hc1
    refine ⟨bs ++ ds, e || e2, c2, ?_, ?_, ?_, hc2, ?_, ?_⟩
    · simp only [Channeledrw.runReads, hr, hr2, Option.some_bind]
    · rw [List.append_assoc, hbuf2, hbuf]
    · simp only [List.length_append]; omega
    · intro hor
      rcases Bool.or_eq_true_iff.mp hor with h1 | h2
      · have hb1 : c1.buffer = [] := he h1
        have : ds ++ c2.buffer = [] := by rw [hbuf2, hb1]
        simp only [List.append_eq_nil] at this
        exact this.2
      · exact he2 h2
    · intro hlt
      simp only [List.sum_cons] at hlt
      by_cases hbig : c.buffer.length < n
      · simp [hfull hbig]
      · have hlist := congrArg List.length hbuf
        simp only [List.length_append] at hlist
        have hbs : bs.length = min n c.buffer.length ∨ bs = c.buffer := by
          unfold Channeledrw.read at hr
          by_cases hn : n ≤ c.buffer.length
          · rw [if_pos hn] at hr
            cases hr
            exact Or.inl (List.length_take n c.buffer)
          · rw [if_neg hn, if_pos hc] at hr
            cases hr
            exact Or.inr rfl
        have hlen : c1.buffer.length < ns.sum := by
          rcases hbs with hbs | hbs
          · omega
          · rw [hbs] at hlist; omega
        simp [hfull2 hlen]

/-- C9: a sequence of `Write` calls followed by `DoneWriting`, then any
sequence of `Read` calls: the bytes delivered are exactly the bytes written, in
order, with none dropped, duplicated or reordered; `ReadCount` equals the number
of delivered bytes; once a read has returned `io.EOF` everything has been
delivered, and a read schedule asking for more than the total written reaches
`io.EOF`. -/
theorem channeledrw_write_read_exact (ps : List (List Nat)) (sizes : List Nat)
    (h : ps.flatten.length ≤ chanCap) :
    ∃ c1 ds e c2,
      Channeledrw.writeSeq ps = some c1 ∧
      c1.runReads sizes = some (ds, e, c2) ∧
      ds ++ c2.buffer = ps.flatten ∧
      c2.readCount = ds.length ∧
      (e = true → ds = ps.flatten) ∧
      (ps.flatten.length < sizes.sum → e = true) := by
  obtain ⟨ds, e, c2, hr, hbuf, hcount, _, he, hfull⟩ :=
    Channeledrw.runReads_closed sizes ⟨ps.flatten, true, 0⟩ rfl
  refine ⟨⟨ps.flatten, true, 0⟩, ds, e, c2, Channeledrw.writeSeq_eq ps h, hr, hbuf, ?_, ?_, hfull⟩
  · simpa [Channeledrw.readCount] using hcount
  · intro hee
    have := he hee
    rw [this, List.append_nil] at hbuf
    exact hbuf

/-- Witness for C9 at a concrete input: two writes, three reads. -/
theorem channeledrw_write_read_exact_witness :
    (([[1, 2], [3]] : List (List Nat)).flatten.length ≤ chanCap) ∧
    ∃ c1 ds e c2,
      Channeledrw.writeSeq [[1, 2], [3]] = some c1 ∧
      c1.runReads [2, 2, 2] = some (ds, e, c2) ∧
      ds ++ c2.buffer = [1, 2, 3] ∧
      c2.readCount = ds.length ∧
      (e = true → ds = [1, 2, 3]) ∧
      (([[1, 2], [3]] : List (List Nat)).flatten.length < [2, 2, 2].sum → e = true) :=
  ⟨by decide, channeledrw_write_read_exact [[1, 2], [3]] [2, 2, 2] (by decide)⟩

/- ### `bittorrent/torrentfile.go` (`updateTorrentFile`) -/

/-- A decoded bencode dictionary, Go's `map[string]interface{}`: an association
list from string keys to opaque values. -/
def Benmap (α : Type) := List (String × α)

/-- File-system model: a path maps to the file contents, `none` when opening
the path fails. -/
def Fs := String → Option String

/-- `updateTorrentFile(torrentPath, clearWebSeeds, clearTrackers)` from
`bittorrent/torrentfile.go`. The bencode library is an external collaborator:
`decode` stands for `bencode.Decode` (`none` = decode error) and `marshal` for
`bencode.Marshal` (`none` = marshal error). Returns the Go error value
(`none` = nil) and the resulting file system. Faithful to the source, the
decode-error branch executes `return err` where `err` is the nil error of the
successful `os.Open`, so the decode error is discarded; likewise the
marshal-error branch returns the nil error of the successful second open. -/
def updateTorrentFile {α : Type} (decode : String → Option (Benmap α))
    (marshal : Benmap α → Option String) (fs : Fs) (torrentPath : String)
    (clearWebSeeds clearTrackers : Bool) : Option String × Fs :=
  match fs torrentPath with
  | none => (some "open failed", fs)
  | some contents =>
    match decode contents with
    | none => (none, fs)
    | some benmap =>
      let benmap := if clearWebSeeds then benmap.filter (fun kv => kv.1 ≠ "url-list") else benmap
      let benmap := if clearTrackers then benmap.filter (fun kv => kv.1 ≠ "announce") else benmap
      -- os.OpenFile(torrentPath, O_WRONLY|O_TRUNC, 0777): the path exists, so
      -- the open succeeds and truncates the file before `bencode.Marshal` runs.
      match marshal benmap with
      | none => (none, fun p => if p = torrentPath then some "" else fs p)
      | some out => (none, fun p => if p = torrentPath then some out else fs p)

/-- C10: when the descriptor file opens successfully but bencode decoding
fails, `updateTorrentFile` returns a nil error — the decode error is discarded
because the (nil) open error is returned instead — and the file system is left
unmodified. -/
theorem updateTorrentFile_decode_error_discarded {α : Type}
    (decode : String → Option (Benmap α)) (marshal : Benmap α → Option String)
    (fs : Fs) (torrentPath : String) (clearWebSeeds clearTrackers : Bool)
    (contents : String)
    (hopen : fs torrentPath = some contents)
    (hdecode : decode contents = none) :
    updateTorrentFile decode marshal fs torrentPath clearWebSeeds clearTrackers =
      (none, fs) := by
  simp only [updateTorrentFile, hopen, hdecode]

/-- Witness for C10: a concrete file whose contents fail to decode. -/
theorem updateTorrentFile_decode_error_discarded_witness :
    (fun _ : String => some "not-bencode" : Fs) "f.torrent" = some "not-bencode" ∧
    (fun _ : String => (none : Option (Benmap Unit))) "not-bencode" = none ∧
    updateTorrentFile (fun _ => (none : Option (Benmap Unit))) (fun _ => some "")
      (fun _ => some "not-bencode") "f.torrent" true true =
      (none, fun _ => some "not-bencode") :=
  ⟨rfl, rfl,
    updateTorrentFile_decode_error_discarded _ _ _ _ _ _ "not-bencode" rfl rfl⟩

/- ### `cmd/quayctl/torrent.go`: the torrent plan builder (`buildTorrentInfoForBlob`) -/

/-- The fields of `types.AuthConfig` read by the plan builder. -/
structure AuthConfig where
  username : String
  password : String
deriving Repr, DecidableEq

/-- A parsed image reference (`reference.Named`): registry host
(`Hostname()`) and repository path (`RemoteName()`). -/
structure NamedRef where
  hostname : String
  remoteName : String
deriving Repr, DecidableEq

/-- `url.URL` as populated by the plan builder. -/
structure URL where
  scheme : String
  host : String
  path : String
  userinfo : Option (String × String)
deriving Repr, DecidableEq

/-- `url.URL.String()` for the URLs built here: an absolute URL with host and
rooted path; percent-escaping of credentials is not modelled. -/
def URL.render (u : URL) : String :=
  u.scheme ++ "://" ++
    (match u.userinfo with
     | none => ""
     | some (user, password) => user ++ ":" ++ password ++ "@") ++
    u.host ++ u.path

/-- `torrentInfo` holds the blobSum and torrent path for a torrent. -/
structure torrentInfo where
  id : String
  torrentPath : String
  title : String
deriving Repr, DecidableEq

/-- The loop of `buildTorrentInfoForBlob`; the first argument list is the
`blobSet` of blob sums already emitted, the second the remaining
`blobs` (each given by its `BlobSum.String()`). -/
def buildTorrentInfoLoop (named : NamedRef) (credentials : AuthConfig)
    (insecureFlag : Bool) : List String → List String → List torrentInfo
  | _, [] => []
  | blobSet, blobSum :: blobs =>
    let torrentURL : URL :=
      { scheme := if insecureFlag then "http" else "https"
        host := named.hostname
        path := "/c1/torrent/" ++ named.remoteName ++ "/blobs/" ++ blobSum
        userinfo :=
          if credentials.username ≠ "" then
            some (credentials.username, credentials.password)
          else none }
    if blobSum ∈ blobSet then
      buildTorrentInfoLoop named credentials insecureFlag blobSet blobs
    else
      ⟨blobSum, torrentURL.render, blobSum⟩ ::
        buildTorrentInfoLoop named credentials insecureFlag (blobSum :: blobSet) blobs

/-- `buildTorrentInfoForBlob(named, blobs, credentials)`; `insecureFlag` is the
package-level command flag, passed explicitly here. -/
def buildTorrentInfoForBlob (named : NamedRef) (blobs : List String)
    (credentials : AuthConfig) (insecureFlag : Bool) : List torrentInfo :=
  buildTorrentInfoLoop named credentials insecureFlag [] blobs

/-- Specification-side first-occurrence deduplication: keeps the first
occurrence of every element, in order of first occurrence. -/
def dedupFirst : List String → List String
  | [] => []
  | b :: bs => b :: dedupFirst (bs.filter fun x => x ≠ b)
termination_by l => l.length
decreasing_by
  simp only [List.length_cons]
  exact Nat.lt_succ_of_le (List.length_filter_le _ bs)

/-- The descriptor the spec prescribes for one blob fingerprint. -/
def specBlobDescriptor (named : NamedRef) (credentials : AuthConfig)
    (insecureFlag : Bool) (fingerprint : String) : torrentInfo :=
  { id := fingerprint
    torrentPath :=
      (if insecureFlag then "http" else "https") ++ "://" ++
        (if credentials.username ≠ "" then
          credentials.username ++ ":" ++ credentials.password ++ "@"
        else "") ++
        named.hostname ++ "/c1/torrent/" ++ named.remoteName ++ "/blobs/" ++ fingerprint
    title := fingerprint }

theorem mem_dedupFirst : ∀ (l : List String) (x : String), x ∈ dedupFirst l ↔ x ∈ l := by
  intro l
  induction l using dedupFirst.induct with
  | case1 => intro x; simp [dedupFirst]
  | case2 b bs ih =>
    intro x
    rw [dedupFirst]
    by_cases hx : x = b
    · subst hx; simp
    · simp only [List.mem_cons, ih, List.mem_filter]
      constructor
      · rintro (h | ⟨h, _⟩)
        · exact absurd h hx
        · exact Or.inr h
      · rintro (h | h)
        · exact absurd h hx
        · exact Or.inr ⟨h, by simpa using hx⟩

theorem dedupFirst_nodup : ∀ l : List String, (dedupFirst l).Nodup := by
  intro l
  induction l using dedupFirst.induct with
  | case1 => simp [dedupFirst]
  | case2 b bs ih =>
    rw [dedupFirst]
    refine List.nodup_cons.mpr ⟨?_, ih⟩
    intro hmem
    have := (mem_dedupFirst _ b).mp hmem
    simp at this

theorem buildTorrentInfoLoop_eq (named : NamedRef) (credentials : AuthConfig)
    (insecureFlag : Bool) :
    ∀ (blobs blobSet : List String),
      buildTorrentInfoLoop named credentials insecureFlag blobSet blobs =
        (dedupFirst (blobs.filter fun b => b ∉ blobSet)).map
          (specBlobDescriptor named credentials insecureFlag) := by
  intro blobs
  induction blobs with
  | nil => intro blobSet; simp [buildTorrentInfoLoop, dedupFirst]
  | cons b bs ih =>
    intro blobSet
    rw [buildTorrentInfoLoop]
    by_cases hb : b ∈ blobSet
    · rw [if_pos hb, ih blobSet]
      have : (b :: bs).filter (fun x => x ∉ blobSet) = bs.filter (fun x => x ∉ blobSet) := by
        rw [List.filter_cons]
        simp [hb]
      rw [this]
    · rw [if_neg hb]
      have hcons : (b :: bs).filter (fun x => x ∉ blobSet) =
          b :: bs.filter (fun x => x ∉ blobSet) := by
        rw [List.filter_cons]
        simp [hb]
      rw [hcons, dedupFirst]
      have hff : (bs.filter fun x => x ∉ blobSet).filter (fun x => x ≠ b) =
          bs.filter fun x => x ∉ b :: blobSet := by
        rw [List.filter_filter]
        apply List.filter_congr
        intro x _
        by_cases hxb : x = b <;> simp [hxb, hb]
      rw [hff, List.map_cons, ih (b :: blobSet)]
      congr 1
      unfold specBlobDescriptor URL.render
      by_cases hu : credentials.username = "" <;> simp [hu, String.append_assoc]

/-- C6: the plan builder returns exactly one descriptor per distinct blob
fingerprint, duplicates collapsed keeping the first occurrence, each descriptor
carrying the URL `scheme://[user:password@]host/c1/torrent/<repo>/blobs/<fp>`
with scheme `http` when insecure and `https` otherwise and user-info exactly
when a username is present, and the fingerprint as both id and title. -/
theorem buildTorrentInfoForBlob_spec (named : NamedRef) (blobs : List String)
    (credentials : AuthConfig) (insecureFlag : Bool) :
    buildTorrentInfoForBlob named blobs credentials insecureFlag =
      (dedupFirst blobs).map (specBlobDescriptor named credentials insecureFlag) ∧
    (dedupFirst blobs).Nodup ∧
    (∀ b, b ∈ dedupFirst blobs ↔ b ∈ blobs) := by
  refine ⟨?_, dedupFirst_nodup blobs, mem_dedupFirst blobs⟩
  unfold buildTorrentInfoForBlob
  rw [buildTorrentInfoLoop_eq]
  congr 1
  congr 1
  rw [List.filter_eq_self]
  intro a _
  simp

/- ### `cmd/quayctl/torrent.go`: layer selection (`requiredLayersAndBlobs`) -/

/-- One `schema1.History` entry: the raw `V1Compatibility` JSON blob. -/
structure History where
  v1Compatibility : String
deriving Repr, DecidableEq

/-- One `schema1.FSLayer`, given by its `BlobSum.String()`. -/
structure FSLayer where
  blobSum : String
deriving Repr, DecidableEq

/-- The parts of a `schema1.SignedManifest` read by the core: the tag, the
ordered history (index 0 topmost) and the parallel-indexed blob references. -/
structure SignedManifest where
  tag : String
  history : List History
  fsLayers : List FSLayer
deriving Repr, DecidableEq

/-- `dockerclient.V1LayerInfo`: the stable layer id parsed out of a
`V1Compatibility` blob. -/
structure V1LayerInfo where
  id : String
deriving Repr, DecidableEq

/-- `layerInfo` from `cmd/quayctl/torrent.go`. -/
structure layerInfo where
  info : V1LayerInfo
  layer : History
  index : Nat
  parentInfo : Option V1LayerInfo
deriving Repr, DecidableEq

/-- `dockerLayersOption`. -/
inductive dockerLayersOption where
  | dockerSkipExistingLayers
  | dockerAllLayers
deriving Repr, DecidableEq

/-- Go slice indexing `layers[i]` (total model; all call sites guard `i` by the
slice length). -/
def histAt (layers : List History) (i : Nat) : History := layers.getD i ⟨""⟩

/-- Go slice indexing `fsLayers[i]`. -/
def fsAt (fsLayers : List FSLayer) (i : Nat) : FSLayer := fsLayers.getD i ⟨""⟩

/-- `buildLayerInfo`'s loop from index `index` upward. `parse` stands for the
external `json.Unmarshal` inside `dockerclient.GetLayerInfo`; `none` is that
function's `log.Fatalf` abort. The parent info of entry `i` is entry `i+1`
within the same slice, absent for the last entry. -/
def buildLayerInfoFrom (parse : String → Option V1LayerInfo) (layers : List History) :
    Nat → Option (List layerInfo)
  | index =>
    if _h : index < layers.length then
      match (if index + 1 < layers.length then
          (parse (histAt layers (index + 1)).v1Compatibility).map some
        else some none), parse (histAt layers index).v1Compatibility with
      | some parentInfo, some info =>
        (buildLayerInfoFrom parse layers (index + 1)).map
          (fun rest => ⟨info, histAt layers index, index, parentInfo⟩ :: rest)
      | _, _ => none
    else some []
termination_by index => layers.length - index

/-- `buildLayerInfo(layers)`. -/
def buildLayerInfo (parse : String → Option V1LayerInfo) (layers : List History) :
    Option (List layerInfo) :=
  buildLayerInfoFrom parse layers 0

/-- The scan loop of `requiredLayersAndBlobs` in the skip-existing-layers case:
walks `manifest.History` from index `index`, accumulating `blobsToDownload`;
`hasImage` is the Docker-engine probe `dockerclient.HasImage` (its error part
is discarded at the call site, leaving `found = false`). -/
def requiredLoop (parse : String → Option V1LayerInfo) (hasImage : String → Bool)
    (m : SignedManifest) : Nat → List FSLayer → Option (List layerInfo × List FSLayer)
  | index, blobsToDownload =>
    if _h : index < m.history.length then
      if hasImage (fsAt m.fsLayers index).blobSum then
        (buildLayerInfo parse (m.history.take index)).map (fun ls => (ls, blobsToDownload))
      else
        requiredLoop parse hasImage m (index + 1)
          (blobsToDownload ++ [fsAt m.fsLayers index])
    else
      (buildLayerInfo parse m.history).map (fun ls => (ls, m.fsLayers))
termination_by index _ => m.history.length - index

/-- `requiredLayersAndBlobs(manifest, option)`. -/
def requiredLayersAndBlobs (parse : String → Option V1LayerInfo)
    (hasImage : String → Bool) (m : SignedManifest) (option : dockerLayersOption) :
    Option (List layerInfo × List FSLayer) :=
  if option = dockerLayersOption.dockerAllLayers then
    (buildLayerInfo parse m.history).map (fun ls => (ls, m.fsLayers))
  else
    requiredLoop parse hasImage m 0 []

theorem fsAt_eq_getElem (fsLayers : List FSLayer) (i : Nat) (h : i < fsLayers.length) :
    fsAt fsLayers i = fsLayers[i] := by
  simp [fsAt, List.getD_eq_getElem?_getD, List.getElem?_eq_getElem h]

theorem buildLayerInfo_ne_some_nil (parse : String → Option V1LayerInfo)
    (layers : List History) (h : layers ≠ []) :
    buildLayerInfo parse layers ≠ some [] := by
  have hlen : 0 < layers.length := List.length_pos.mpr h
  unfold buildLayerInfo
  rw [buildLayerInfoFrom, dif_pos hlen]
  intro hc
  split at hc <;> simp [Option.map_eq_some'] at hc

theorem requiredLoop_eq (parse : String → Option V1LayerInfo) (hasImage : String → Bool)
    (m : SignedManifest) (hlen : m.fsLayers.length = m.history.length) :
    ∀ (index : Nat) (acc : List FSLayer),
      requiredLoop parse hasImage m index acc =
        (if (m.fsLayers.drop index).findIdx (fun f => hasImage f.blobSum) <
            (m.fsLayers.drop index).length then
          (buildLayerInfo parse
            (m.history.take (index +
              (m.fsLayers.drop index).findIdx (fun f => hasImage f.blobSum)))).map
            (fun ls => (ls, acc ++ (m.fsLayers.drop index).take
              ((m.fsLayers.drop index).findIdx (fun f => hasImage f.blobSum))))
        else
          (buildLayerInfo parse m.history).map (fun ls => (ls, m.fsLayers))) := by
  intro index acc
  induction index, acc using requiredLoop.induct parse hasImage m with
  | case1 index acc hidx hhas =>
    rw [requiredLoop, dif_pos hidx, if_pos hhas]
    have hfs : index < m.fsLayers.length := by omega
    have hdrop : m.fsLayers.drop index = m.fsLayers[index] :: m.fsLayers.drop (index + 1) :=
      List.drop_eq_getElem_cons hfs
    rw [fsAt_eq_getElem m.fsLayers index hfs] at hhas
    rw [hdrop, List.findIdx_cons, hhas]
    simp only [cond_true, List.length_cons]
    rw [if_pos (Nat.succ_pos _)]
    simp
  | case2 index acc hidx hhas ih =>
    rw [requiredLoop, dif_pos hidx, if_neg hhas, ih]
    have hfs : index < m.fsLayers.length := by omega
    have hdrop : m.fsLayers.drop index = m.fsLayers[index] :: m.fsLayers.drop (index + 1) :=
      List.drop_eq_getElem_cons hfs
    rw [fsAt_eq_getElem m.fsLayers index hfs] at hhas ⊢
    rw [hdrop, List.findIdx_cons]
    rw [Bool.eq_false_iff.mpr hhas]
    simp only [cond_false, List.length_cons, Nat.add_lt_add_iff_right, List.take_succ_cons]
    by_cases hk : (m.fsLayers.drop (index + 1)).findIdx (fun f => hasImage f.blobSum) <
        (m.fsLayers.drop (index + 1)).length
    · rw [if_pos hk, if_pos hk]
      have harith : index + 1 + (m.fsLayers.drop (index + 1)).findIdx (fun f => hasImage f.blobSum) =
          index + ((m.fsLayers.drop (index + 1)).findIdx (fun f => hasImage f.blobSum) + 1) := by
        omega
      rw [harith]
      simp [List.append_assoc]
    · rw [if_neg hk, if_neg hk]
  | case3 index acc hidx =>
    rw [requiredLoop, dif_neg hidx]
    have hdrop : m.fsLayers.drop index = [] := by
      apply List.drop_eq_nil_of_le
      omega
    rw [hdrop]
    simp

/-- A two-history-entry manifest used for the C4 counterexample. -/
def mTwoLayer : SignedManifest := ⟨"latest", [⟨"h0"⟩, ⟨"h1"⟩], [⟨"b0"⟩, ⟨"b1"⟩]⟩

/-- An engine that reports only the topmost blob "b0" as present. -/
def hasTopOnly : String → Bool := fun s => s = "b0"

/-- A V1-compatibility parser that always succeeds. -/
def parseAlways : String → Option V1LayerInfo := fun s => some ⟨s⟩

/-- C4, counterexample: with a two-entry manifest whose topmost layer alone is
reported present, the Missing-mode scan returns empty layers and empty blobs
even though the engine does not report every history layer as present — the
claimed "iff every layer present" is false. -/
theorem requiredLayersAndBlobs_empty_without_all_present :
    requiredLayersAndBlobs parseAlways hasTopOnly mTwoLayer
        dockerLayersOption.dockerSkipExistingLayers = some ([], []) ∧
    ¬ (∀ f ∈ mTwoLayer.fsLayers, hasTopOnly f.blobSum = true) := by
  constructor
  · rw [requiredLayersAndBlobs, if_neg (by decide), requiredLoop,
      dif_pos (by decide : (0 : Nat) < mTwoLayer.history.length),
      if_pos (by decide : hasTopOnly (fsAt mTwoLayer.fsLayers 0).blobSum = true)]
    rw [show mTwoLayer.history.take 0 = [] from rfl, buildLayerInfo, buildLayerInfoFrom]
    simp
  · decide

/-- C4 (amended): in skip-existing-layers (Missing) mode the scan walks the
history from topmost to base querying the engine per parallel blob; the first
layer reported present, at index k, terminates the scan, which returns exactly
the k layers above it and exactly their k blobs; if none is present it returns
all layers and all blobs. Consequently the result is empty iff the history is
empty or the engine reports the topmost layer (index 0) as present — not "every
layer". -/
theorem requiredLayersAndBlobs_missing_spec (parse : String → Option V1LayerInfo)
    (hasImage : String → Bool) (m : SignedManifest)
    (hlen : m.fsLayers.length = m.history.length) :
    (requiredLayersAndBlobs parse hasImage m dockerLayersOption.dockerSkipExistingLayers =
      (if m.fsLayers.findIdx (fun f => hasImage f.blobSum) < m.fsLayers.length then
        (buildLayerInfo parse
          (m.history.take (m.fsLayers.findIdx (fun f => hasImage f.blobSum)))).map
          (fun ls => (ls, m.fsLayers.take (m.fsLayers.findIdx (fun f => hasImage f.blobSum))))
      else
        (buildLayerInfo parse m.history).map (fun ls => (ls, m.fsLayers)))) ∧
    (requiredLayersAndBlobs parse hasImage m dockerLayersOption.dockerSkipExistingLayers =
        some ([], []) ↔
      (m.history = [] ∨ ∃ f, m.fsLayers.head? = some f ∧ hasImage f.blobSum = true)) := by
  have hentry : requiredLayersAndBlobs parse hasImage m
      dockerLayersOption.dockerSkipExistingLayers = requiredLoop parse hasImage m 0 [] := by
    rw [requiredLayersAndBlobs, if_neg (by decide)]
  have hmain := requiredLoop_eq parse hasImage m hlen 0 []
  rw [List.drop_zero] at hmain
  simp only [Nat.zero_add, List.nil_append] at hmain
  refine ⟨by rw [hentry, hmain], ?_⟩
  rw [hentry, hmain]
  rcases hh : m.history with _ | ⟨h0, hrest⟩
  · have hfs : m.fsLayers = [] := by
      have : m.fsLayers.length = 0 := by rw [hlen, hh]; rfl
      exact List.eq_nil_of_length_eq_zero this
    rw [hfs]
    rw [show (buildLayerInfo parse [] : Option (List layerInfo)) = some [] from by
      rw [buildLayerInfo, buildLayerInfoFrom]; rfl]
    simp
  · rcases hfs : m.fsLayers with _ | ⟨f0, fsrest⟩
    · exfalso
      rw [hfs, hh] at hlen
      simp at hlen
    · by_cases hhas : hasImage f0.blobSum
      · rw [List.findIdx_cons, hhas]
        simp only [cond_true, List.length_cons, List.take_zero]
        rw [if_pos (Nat.succ_pos _)]
        rw [show (buildLayerInfo parse [] : Option (List layerInfo)) = some [] from by
          rw [buildLayerInfo, buildLayerInfoFrom]; rfl]
        simp [hhas]
      · rw [List.findIdx_cons, Bool.eq_false_iff.mpr hhas]
        simp only [cond_false, List.length_cons]
        constructor
        · intro hsome
          exfalso
          by_cases hk : fsrest.findIdx (fun f => hasImage f.blobSum) + 1 < fsrest.length + 1
          · rw [if_pos hk, Option.map_eq_some'] at hsome
            obtain ⟨ls, hls, hpair⟩ := hsome
            have hls0 : ls = [] := by
              have := congrArg Prod.fst hpair
              simpa using this
            rw [hls0] at hls
            refine buildLayerInfo_ne_some_nil parse _ ?_ hls
            intro htake
            rw [List.take_eq_nil_iff] at htake
            simp at htake
          · rw [if_neg hk, Option.map_eq_some'] at hsome
            obtain ⟨ls, hls, hpair⟩ := hsome
            have hls0 : ls = [] := by
              have := congrArg Prod.fst hpair
              simpa using this
            rw [hls0] at hls
            refine buildLayerInfo_ne_some_nil parse _ ?_ hls
            simp
        · rintro (hnil | ⟨f, hf, hfb⟩)
          · exact absurd hnil (by simp)
          · simp only [List.head?_cons, Option.some_inj] at hf
            rw [← hf] at hfb
            exact absurd hfb hhas

/-- A single-history-entry manifest for the C4 witness. -/
def mOneLayer : SignedManifest := ⟨"t", [⟨"h0"⟩], [⟨"b0"⟩]⟩

/-- An engine that reports no blob as present. -/
def hasNone : String → Bool := fun _ => false

/-- Witness for C4's amended theorem at a concrete single-layer manifest with
no layer present in the engine. -/
theorem requiredLayersAndBlobs_missing_spec_witness :
    (mOneLayer.fsLayers.length = mOneLayer.history.length) ∧
    ((requiredLayersAndBlobs parseAlways hasNone mOneLayer
        dockerLayersOption.dockerSkipExistingLayers =
      (if mOneLayer.fsLayers.findIdx (fun f => hasNone f.blobSum) <
          mOneLayer.fsLayers.length then
        (buildLayerInfo parseAlways
          (mOneLayer.history.take
            (mOneLayer.fsLayers.findIdx (fun f => hasNone f.blobSum)))).map
          (fun ls => (ls, mOneLayer.fsLayers.take
            (mOneLayer.fsLayers.findIdx (fun f => hasNone f.blobSum))))
      else
        (buildLayerInfo parseAlways mOneLayer.history).map
          (fun ls => (ls, mOneLayer.fsLayers)))) ∧
    (requiredLayersAndBlobs parseAlways hasNone mOneLayer
        dockerLayersOption.dockerSkipExistingLayers = some ([], []) ↔
      (mOneLayer.history = [] ∨ ∃ f, mOneLayer.fsLayers.head? = some f ∧
        hasNone f.blobSum = true))) :=
  ⟨rfl, requiredLayersAndBlobs_missing_spec parseAlways hasNone mOneLayer rfl⟩

/- ### `dockerclient/dockerload.go`: `buildDockerLoadTar` -/

/-- `json.Marshal` of the two-level string map
`{repoKey: {tag: topLayerId}}` built for the `repositories` file (single-key
maps, so Go's key ordering is immaterial; the values at hand need no JSON
escaping). -/
def renderRepositories (repoKey tag topLayerId : String) : String :=
  "\x7b\"" ++ repoKey ++ "\":\x7b\"" ++ tag ++ "\":\"" ++ topLayerId ++ "\"\x7d\x7d"

/-- `dockerclient.GetLayerInfo`: `json.Unmarshal` of the V1 compatibility blob
into `V1LayerInfo`; `parse` is the external JSON library, `none` the
`log.Fatalf` abort. -/
def GetLayerInfo (parse : String → Option V1LayerInfo) (layerHistory : History) :
    Option V1LayerInfo :=
  parse layerHistory.v1Compatibility

/-- Abnormal exits of `buildDockerLoadTar`: an index-out-of-range panic on
`manifest.History`, the `log.Fatalf` inside `GetLayerInfo`, or a returned
`os.Open` error. -/
inductive DockerLoadErr where
  | panicked
  | fatalUnmarshal
  | openFailed (path : String)
deriving Repr, DecidableEq

/-- The per-layer loop of `buildDockerLoadTar`: for each index of
`manifest.FSLayers` it emits `<layerId>/json` (the raw compatibility blob) and
`<layerId>/layer.tar` (the contents of the file at
`layerPaths[layer.BlobSum.String()]`, a Go map access whose missing-key zero
value is `""`). `fs` is the file system; an open failure aborts. -/
def dockerLoadLayerEntries (parse : String → Option V1LayerInfo) (m : SignedManifest)
    (layerPaths : String → String) (fs : Fs) :
    Nat → Except DockerLoadErr (List (String × String))
  | index =>
    if _h : index < m.fsLayers.length then
      if index < m.history.length then
        match GetLayerInfo parse (histAt m.history index) with
        | none => .error .fatalUnmarshal
        | some layerInfo =>
          match fs (layerPaths (fsAt m.fsLayers index).blobSum) with
          | none => .error (.openFailed (layerPaths (fsAt m.fsLayers index).blobSum))
          | some contents =>
            (dockerLoadLayerEntries parse m layerPaths fs (index + 1)).map
              (fun rest =>
                (layerInfo.id ++ "/json", (histAt m.history index).v1Compatibility) ::
                (layerInfo.id ++ "/layer.tar", contents) :: rest)
      else .error .panicked
    else .ok []
termination_by index => m.fsLayers.length - index

/-- `buildDockerLoadTar(image, manifest, layerPaths, w)`: the archive is
modelled as its ordered list of (name, contents) entries; the `tar.Writer`
framing and its `log.Fatalln` error paths are not hit in this model. -/
def buildDockerLoadTar (parse : String → Option V1LayerInfo) (image : NamedRef)
    (m : SignedManifest) (layerPaths : String → String) (fs : Fs) :
    Except DockerLoadErr (List (String × String)) :=
  if m.history = [] then .error .panicked
  else
    match GetLayerInfo parse (histAt m.history 0) with
    | none => .error .fatalUnmarshal
    | some topLayer =>
      (dockerLoadLayerEntries parse m layerPaths fs 0).map
        (fun layerEntries =>
          ("VERSION", "1.0") ::
          ("repositories",
            renderRepositories (image.hostname ++ "/" ++ image.remoteName) m.tag
              topLayer.id) ::
          layerEntries)

/-- The two archive entries the spec prescribes for history index `i`. -/
def specLayerEntryPair (parse : String → Option V1LayerInfo) (m : SignedManifest)
    (layerPaths : String → String) (fs : Fs) (i : Nat) : List (String × String) :=
  [(((GetLayerInfo parse (histAt m.history i)).getD ⟨""⟩).id ++ "/json",
      (histAt m.history i).v1Compatibility),
   (((GetLayerInfo parse (histAt m.history i)).getD ⟨""⟩).id ++ "/layer.tar",
      (fs (layerPaths (fsAt m.fsLayers i).blobSum)).getD "")]

theorem dockerLoadLayerEntries_eq (parse : String → Option V1LayerInfo)
    (m : SignedManifest) (layerPaths : String → String) (fs : Fs)
    (hlen : m.history.length = m.fsLayers.length)
    (hparse : ∀ i, i < m.history.length →
      (GetLayerInfo parse (histAt m.history i)).isSome)
    (hfs : ∀ i, i < m.fsLayers.length →
      (fs (layerPaths (fsAt m.fsLayers i).blobSum)).isSome) :
    ∀ index, dockerLoadLayerEntries parse m layerPaths fs index =
      .ok ((List.range' index (m.fsLayers.length - index)).flatMap
        (specLayerEntryPair parse m layerPaths fs)) := by
  intro index
  induction index using dockerLoadLayerEntries.induct parse m layerPaths fs with
  | case1 x index hfsl hhist hnone =>
    exact absurd (hparse index hhist) (by simp [hnone])
  | case2 x index hfsl hhist layerInfo hsome hnone =>
    exact absurd (hfs index hfsl) (by simp [hnone])
  | case3 x index hfsl hhist layerInfo hsome contents hcont ih =>
    rw [dockerLoadLayerEntries, dif_pos hfsl, if_pos hhist, hsome, hcont, ih]
    have hrange : m.fsLayers.length - index = (m.fsLayers.length - (index + 1)) + 1 := by
      omega
    rw [hrange, List.range'_succ, List.flatMap_cons]
    rw [show specLayerEntryPair parse m layerPaths fs index =
      [(layerInfo.id ++ "/json", (histAt m.history index).v1Compatibility),
       (layerInfo.id ++ "/layer.tar", contents)] from by
        rw [specLayerEntryPair, hsome, hcont]; rfl]
    rfl
  | case4 x index hfsl hhist =>
    exact absurd hfsl (by omega)
  | case5 x index hfsl =>
    rw [dockerLoadLayerEntries, dif_neg hfsl]
    rw [show m.fsLayers.length - index = 0 from by omega]
    rfl

theorem flatMap_pair_length (l : List Nat) (f : Nat → List (String × String))
    (h : ∀ i ∈ l, (f i).length = 2) : (l.flatMap f).length = 2 * l.length := by
  induction l with
  | nil => rfl
  | cons a t ih =>
    rw [List.flatMap_cons, List.length_append, h a (by simp), List.length_cons,
      ih (fun i hi => h i (by simp [hi]))]
    omega

/-- C5: for a manifest with a nonempty history (including a single entry) whose
compatibility blobs all parse and whose blob files all open, the engine load
archive contains exactly: `VERSION` with content `"1.0"`; `repositories`
rendering the JSON object mapping `host/repo` to `{tag → id of history entry
0}`; and, per history index in order, one `<layerId>/json` entry holding the
raw compatibility blob and one `<layerId>/layer.tar` entry holding the blob
file contents — `2·H` per-layer entries in total. -/
theorem buildDockerLoadTar_entries (parse : String → Option V1LayerInfo)
    (image : NamedRef) (m : SignedManifest) (layerPaths : String → String) (fs : Fs)
    (hne : m.history ≠ [])
    (hlen : m.history.length = m.fsLayers.length)
    (hparse : ∀ i, i < m.history.length →
      (GetLayerInfo parse (histAt m.history i)).isSome)
    (hfs : ∀ i, i < m.fsLayers.length →
      (fs (layerPaths (fsAt m.fsLayers i).blobSum)).isSome) :
    buildDockerLoadTar parse image m layerPaths fs =
      .ok (("VERSION", "1.0") ::
        ("repositories",
          renderRepositories (image.hostname ++ "/" ++ image.remoteName) m.tag
            ((GetLayerInfo parse (histAt m.history 0)).getD ⟨""⟩).id) ::
        (List.range m.history.length).flatMap
          (specLayerEntryPair parse m layerPaths fs)) ∧
    ((List.range m.history.length).flatMap
      (specLayerEntryPair parse m layerPaths fs)).length = 2 * m.history.length := by
  have hzero : 0 < m.history.length := List.length_pos.mpr hne
  obtain ⟨top, htop⟩ := Option.isSome_iff_exists.mp (hparse 0 hzero)
  constructor
  · rw [buildDockerLoadTar, if_neg hne, htop,
      dockerLoadLayerEntries_eq parse m layerPaths fs hlen hparse hfs 0,
      show m.fsLayers.length - 0 = m.fsLayers.length from rfl, ← hlen,
      ← List.range_eq_range']
    rfl
  · rw [flatMap_pair_length (List.range m.history.length)
      (specLayerEntryPair parse m layerPaths fs) (fun i _ => rfl)]
    rw [List.length_range]

/- ### `dockerclient/registrydriver.go`: the read-only storage driver -/

/-- Outcome of a storage-driver operation: a returned value, a returned Go
error value, or a `panic`. -/
inductive DriverOutcome (α : Type) where
  | ok (value : α)
  | err (msg : String)
  | panicked (msg : String)
deriving Repr, DecidableEq

/-- `localServeDriver`: its two Go maps, request path → inline bytes
(`contentPaths`) and request path → backing file (`externalContentPaths`). -/
structure LocalServeDriver where
  contentPaths : String → Option String
  externalContentPaths : String → Option String

/-- `GetContent(ctx, path)`. State-passing: the returned driver is the state
after the call. -/
def LocalServeDriver.GetContent (d : LocalServeDriver) (path : String) :
    DriverOutcome String × LocalServeDriver :=
  match d.contentPaths path with
  | some contentBytes => (.ok contentBytes, d)
  | none => (.err "Unknown file", d)

/-- `PutContent(ctx, subPath, contents)`: `panic("Not supported")`. -/
def LocalServeDriver.PutContent (d : LocalServeDriver) (_subPath _contents : String) :
    DriverOutcome Unit × LocalServeDriver :=
  (.panicked "Not supported", d)

/-- `ReadStream(ctx, path, offset)`: opens the backing file read-only and seeks
to `offset`; the reader is modelled as the file contents plus the seek
position. `fs` is the file system; a missing file yields the
`PathNotFoundError`, a negative offset a seek error (`Seek` with `SEEK_SET`
otherwise succeeds and returns `offset`, so the `seekPos < offset` branch is
unreachable). -/
def LocalServeDriver.ReadStream (d : LocalServeDriver) (fs : Fs) (path : String)
    (offset : Int) : DriverOutcome (String × Int) × LocalServeDriver :=
  match d.externalContentPaths path with
  | none => (.err "Unknown file", d)
  | some contentLocation =>
    match fs contentLocation with
    | none => (.err "PathNotFoundError", d)
    | some contents =>
      if offset < 0 then (.err "seek failed", d)
      else (.ok (contents, offset), d)

/-- `WriteStream(ctx, subPath, offset, reader)`: `panic("Not supported")`. -/
def LocalServeDriver.WriteStream (d : LocalServeDriver) (_subPath : String)
    (_offset : Int) (_reader : String) : DriverOutcome Int × LocalServeDriver :=
  (.panicked "Not supported", d)

/-- `Stat(ctx, subPath)`: the `fileInfo` is modelled as (path, size). -/
def LocalServeDriver.Stat (d : LocalServeDriver) (fs : Fs) (subPath : String) :
    DriverOutcome (String × Nat) × LocalServeDriver :=
  match d.contentPaths subPath with
  | some contentBytes => (.ok (subPath, contentBytes.length), d)
  | none =>
    match d.externalContentPaths subPath with
    | some contentLocation =>
      match fs contentLocation with
      | none => (.err "open failed", d)
      | some contents => (.ok (subPath, contents.length), d)
    | none => (.err "Unknown file", d)

/-- `List(ctx, subPath)`: `panic("Not supported")`. -/
def LocalServeDriver.ListDir (d : LocalServeDriver) (_subPath : String) :
    DriverOutcome (List String) × LocalServeDriver :=
  (.panicked "Not supported", d)

/-- `Move(ctx, sourcePath, destPath)`: `panic("Not supported")`. -/
def LocalServeDriver.Move (d : LocalServeDriver) (_sourcePath _destPath : String) :
    DriverOutcome Unit × LocalServeDriver :=
  (.panicked "Not supported", d)

/-- `Delete(ctx, subPath)`: `panic("Not supported")`. -/
def LocalServeDriver.Delete (d : LocalServeDriver) (_subPath : String) :
    DriverOutcome Unit × LocalServeDriver :=
  (.panicked "Not supported", d)

/-- `URLFor(ctx, path, options)`: returns `ErrUnsupportedMethod`. -/
def LocalServeDriver.URLFor (d : LocalServeDriver) (_path : String) :
    DriverOutcome String × LocalServeDriver :=
  (.err "ErrUnsupportedMethod", d)

/-- C7: every mutating operation of the local registry shim's storage driver —
`PutContent`, `WriteStream`, `Move`, `Delete` — fails for every input with the
driver's unsupported-operation failure (`panic("Not supported")`, never a
success), leaving the driver unchanged; and the read operations `GetContent`,
`ReadStream` and `Stat` never mutate the driver's state. -/
theorem localServeDriver_readonly (d : LocalServeDriver) (fs : Fs)
    (p q contents reader : String) (offset : Int) :
    (d.PutContent p contents = (.panicked "Not supported", d)) ∧
    (d.WriteStream p offset reader = (.panicked "Not supported", d)) ∧
    (d.Move p q = (.panicked "Not supported", d)) ∧
    (d.Delete p = (.panicked "Not supported", d)) ∧
    ((d.GetContent p).2 = d) ∧
    ((d.ReadStream fs p offset).2 = d) ∧
    ((d.Stat fs p).2 = d) := by
  refine ⟨rfl, rfl, rfl, rfl, ?_, ?_, ?_⟩
  · rcases hC : d.contentPaths p with _ | b <;>
      simp [LocalServeDriver.GetContent, hC]
  · rcases hE : d.externalContentPaths p with _ | loc
    · simp [LocalServeDriver.ReadStream, hE]
    · rcases hF : fs loc with _ | c
      · simp [LocalServeDriver.ReadStream, hE, hF]
      · by_cases hoff : offset < 0 <;>
          simp [LocalServeDriver.ReadStream, hE, hF, hoff]
  · rcases hC : d.contentPaths p with _ | b
    · rcases hE : d.externalContentPaths p with _ | loc
      · simp [LocalServeDriver.Stat, hC, hE]
      · rcases hF : fs loc with _ | c <;> simp [LocalServeDriver.Stat, hC, hE, hF]
    · simp [LocalServeDriver.Stat, hC]

/-- A single-history-entry manifest for the C5 witness. -/
def mDockerLoad : SignedManifest := ⟨"v1", [⟨"compat0"⟩], [⟨"b0"⟩]⟩

/-- A concrete image reference. -/
def imageEx : NamedRef := ⟨"q.example", "ns/img"⟩

/-- Witness for C5 at a one-entry manifest (the H = 1 boundary case). -/
theorem buildDockerLoadTar_entries_witness :
    (mDockerLoad.history ≠ []) ∧
    (mDockerLoad.history.length = mDockerLoad.fsLayers.length) ∧
    (∀ i, i < mDockerLoad.history.length →
      (GetLayerInfo parseAlways (histAt mDockerLoad.history i)).isSome) ∧
    (∀ i, i < mDockerLoad.fsLayers.length →
      ((fun _ => some "LAYER" : Fs)
        ((fun _ => "/p0" : String → String) (fsAt mDockerLoad.fsLayers i).blobSum)).isSome) ∧
    (buildDockerLoadTar parseAlways imageEx mDockerLoad (fun _ => "/p0")
        (fun _ => some "LAYER") =
      .ok (("VERSION", "1.0") ::
        ("repositories",
          renderRepositories (imageEx.hostname ++ "/" ++ imageEx.remoteName)
            mDockerLoad.tag
            ((GetLayerInfo parseAlways (histAt mDockerLoad.history 0)).getD ⟨""⟩).id) ::
        (List.range mDockerLoad.history.length).flatMap
          (specLayerEntryPair parseAlways mDockerLoad (fun _ => "/p0")
            (fun _ => some "LAYER"))) ∧
      ((List.range mDockerLoad.history.length).flatMap
        (specLayerEntryPair parseAlways mDockerLoad (fun _ => "/p0")
          (fun _ => some "LAYER"))).length = 2 * mDockerLoad.history.length) :=
  ⟨by decide, rfl, fun _ _ => rfl, fun _ _ => rfl,
    buildDockerLoadTar_entries parseAlways imageEx mDockerLoad _ _ (by decide) rfl
      (fun _ _ => rfl) (fun _ _ => rfl)⟩

/- ### `bittorrent/torrentfile.go`: the libtorrent-backed `Client` -/

/-- The libtorrent torrent states distinguished by `parseTorrentState`. -/
inductive LtState where
  | queuedForChecking
  | checkingFiles
  | downloadingMetadata
  | downloading
  | finished
  | seeding
  | allocating
  | checkingResumeData
  | other
deriving Repr, DecidableEq

/-- The data libtorrent reports for a torrent handle: the torrent file's name
(`handle.TorrentFile().Name()`) and the fields of `handle.Status(0)`. Rates
are in bytes per second; `progress` is libtorrent's completion fraction. -/
structure TorrentHandle where
  torrentFileName : String
  state : LtState
  progress : ℚ
  downloadRate : ℚ
  uploadRate : ℚ
  connectCandidates : Int
  numPeers : Int
  numSeeds : Int
deriving Repr, DecidableEq

/-- The `torrent` struct: a libtorrent handle and the `isFinished` channel
(modelled by its closed flag). -/
structure BtTorrent where
  handle : TorrentHandle
  isFinishedClosed : Bool
deriving Repr, DecidableEq

/-- The `Client` struct: the `Running` flag, the `torrents` map keyed by source
path, and — for the seeding-release channels handed out by `Download` — a store
of every `keepSeedingChan` allocated so far, `true` when closed. The libtorrent
`session` itself is external. -/
structure Client where
  running : Bool
  torrents : List (String × BtTorrent)
  chans : List Bool
deriving Repr, DecidableEq

/-- `parseTorrentState`. -/
def parseTorrentState : LtState → String
  | .queuedForChecking => "Queued for checking"
  | .checkingFiles => "Checking files"
  | .downloadingMetadata => "Downloading metadata"
  | .downloading => "Downloading"
  | .finished => "Finished"
  | .seeding => "Seeding"
  | .allocating => "Allocating"
  | .checkingResumeData => "Checking resume data"
  | .other => "Unknown"

/-- The `Status` struct returned by `GetStatus`. -/
structure Status where
  name : String
  status : String
  progress : ℚ
  downloadRate : ℚ
  uploadRate : ℚ
  numConnectCandidates : Int
  numPeers : Int
  numSeeds : Int
deriving Repr, DecidableEq

/-- `Client.GetStatus(sourcePath)`. `Progress` is the libtorrent fraction
times 100; the rates are divided by 1024 (kB/s). -/
def Client.GetStatus (bt : Client) (sourcePath : String) : Except String Status :=
  match bt.torrents.lookup sourcePath with
  | none => .error "torrent not found"
  | some torrent =>
    .ok { name := torrent.handle.torrentFileName
          status := parseTorrentState torrent.handle.state
          progress := torrent.handle.progress * 100
          downloadRate := torrent.handle.downloadRate / 1024
          uploadRate := torrent.handle.uploadRate / 1024
          numConnectCandidates := torrent.handle.connectCandidates
          numPeers := torrent.handle.numPeers
          numSeeds := torrent.handle.numSeeds }

/-- `Client.deleteTorrent(sourcePath, keepSeedingChan)`: removes the map entry
(and `session.RemoveTorrent`, external) when present, and closes the passed
channel when it is non-nil. -/
def Client.deleteTorrent (bt : Client) (sourcePath : String)
    (keepSeedingChan : Option Nat) : Client :=
  let bt1 := if (bt.torrents.lookup sourcePath).isSome then
      { bt with torrents := bt.torrents.filter (fun kv => kv.1 ≠ sourcePath) }
    else bt
  match keepSeedingChan with
  | none => bt1
  | some c => { bt1 with chans := bt1.chans.set c true }

/-- `Client.Stop()`: clears `Running`, then calls `deleteTorrent(sourcePath,
nil)` for every active source path; stopping the discovery services and
destroying the session are external effects. -/
def Client.Stop (bt : Client) : Client :=
  let bt1 : Client := { bt with running := false }
  (bt1.torrents.map Prod.fst).foldl (fun s sp => s.deleteTorrent sp none) bt1

/-- The failure modes of `Client.Download` before the blocking wait. -/
inductive DlError where
  | notRunning
  | duplicate
  | fetchFailed
  | addFailed
deriving Repr, DecidableEq

/-- The first phase of `Client.Download(sourcePath, downloadPath,
seedDuration)`, up to inserting the torrent into the session map: the running
check, the duplicate check (taken under the lock, re-taken before insertion),
the descriptor fetch for http(s) URLs (external HTTP; `fetch = none` covers the
temp-file, request and status failures), and `session.AddTorrent`
(`addErrCode ≠ 0` is its error path, `handle` the handle it returns). Returns
the result and the client state after the call. -/
def Client.downloadAdd (bt : Client) (sourcePath : String) (fetch : Option Unit)
    (addErrCode : Nat) (handle : TorrentHandle) :
    Except DlError BtTorrent × Client :=
  if ¬ bt.running then (.error .notRunning, bt)
  else if (bt.torrents.lookup sourcePath).isSome then (.error .duplicate, bt)
  else if (sourcePath.startsWith "http://" || sourcePath.startsWith "https://")
      && fetch.isNone then (.error .fetchFailed, bt)
  else if (bt.torrents.lookup sourcePath).isSome then (.error .duplicate, bt)
  else if addErrCode ≠ 0 then (.error .addFailed, bt)
  else
    let torrent : BtTorrent := ⟨handle, false⟩
    (.ok torrent, { bt with torrents := (sourcePath, torrent) :: bt.torrents })

/-- The tail of `Client.Download` after the `<-torrent.isFinished` wait, for a
non-nil `seedDuration`: a fresh `keepSeedingChan` is allocated (its index is
returned); `seedDuration > 0` schedules a deferred
`deleteTorrent(sourcePath, keepSeedingChan)` (returned as a pending timer);
`seedDuration == 0` neither removes the torrent nor schedules anything. -/
def Client.downloadEpilogue (bt : Client) (sourcePath : String)
    (seedDuration : Option Int) : Client × Nat × List (String × Nat) :=
  let c := bt.chans.length
  let bt1 : Client := { bt with chans := bt.chans ++ [false] }
  match seedDuration with
  | none => (bt1.deleteTorrent sourcePath (some c), c, [])
  | some d => if 0 < d then (bt1, c, [(sourcePath, c)]) else (bt1, c, [])

theorem lookup_none_not_mem {β : Type} (l : List (String × β)) (a : String)
    (h : l.lookup a = none) : a ∉ l.map Prod.fst := by
  induction l with
  | nil => simp
  | cons kv t ih =>
    rw [List.lookup_cons] at h
    by_cases hk : a = kv.1
    · simp [hk] at h
    · simp only [show (a == kv.1) = false from by simpa using hk] at h
      simp only [List.map_cons, List.mem_cons]
      rintro (he | hmem)
      · exact hk he
      · exact ih h hmem

/-- C3: for a running session, a `Download` call for a descriptor URL that
already has an active task fails with the duplicate error
("This torrent is already being downloaded.") and leaves the session's task map
unchanged — no second handle is added — and every `Download` call preserves the
distinctness of the task map's keys, so descriptor URLs are unique keys of the
task map at all times. -/
theorem download_duplicate_unique (bt : Client) (sourcePath : String)
    (fetch : Option Unit) (addErrCode : Nat) (handle : TorrentHandle)
    (hrun : bt.running = true)
    (hnodup : (bt.torrents.map Prod.fst).Nodup) :
    ((bt.torrents.lookup sourcePath).isSome →
      bt.downloadAdd sourcePath fetch addErrCode handle = (.error .duplicate, bt)) ∧
    ((bt.downloadAdd sourcePath fetch addErrCode handle).2.torrents.map
      Prod.fst).Nodup := by
  constructor
  · intro hdup
    rw [Client.downloadAdd, if_neg (by rw [hrun]; exact fun h => h rfl), if_pos hdup]
  · rw [Client.downloadAdd]
    by_cases h1 : ¬ bt.running
    · rw [if_pos h1]; exact hnodup
    · rw [if_neg h1]
      by_cases h2 : (bt.torrents.lookup sourcePath).isSome
      · rw [if_pos h2]; exact hnodup
      · rw [if_neg h2]
        by_cases h3 : (sourcePath.startsWith "http://" ||
            sourcePath.startsWith "https://") && fetch.isNone
        · rw [if_pos h3]; exact hnodup
        · rw [if_neg h3, if_neg h2]
          by_cases h4 : addErrCode ≠ 0
          · rw [if_pos h4]; exact hnodup
          · rw [if_neg h4]
            simp only [List.map_cons, List.nodup_cons]
            refine ⟨?_, hnodup⟩
            exact lookup_none_not_mem bt.torrents sourcePath
              (Option.not_isSome_iff_eq_none.mp h2)

/-- A running client with one active torrent, for the C3 witness. -/
def btOne : Client :=
  ⟨true, [("u", ⟨⟨"n", .downloading, 0, 0, 0, 0, 0, 0⟩, false⟩)], []⟩

/-- Witness for C3: a duplicate `Download` call on a concrete running client. -/
theorem download_duplicate_unique_witness :
    (btOne.running = true) ∧ ((btOne.torrents.map Prod.fst).Nodup) ∧
    (((btOne.torrents.lookup "u").isSome →
      btOne.downloadAdd "u" none 0 ⟨"n2", .downloading, 0, 0, 0, 0, 0, 0⟩ =
        (.error .duplicate, btOne)) ∧
    ((btOne.downloadAdd "u" none 0
      ⟨"n2", .downloading, 0, 0, 0, 0, 0, 0⟩).2.torrents.map Prod.fst).Nodup) :=
  ⟨rfl, by decide,
    download_duplicate_unique btOne "u" none 0 _ rfl (by decide)⟩

theorem deleteTorrent_none_chans (s : Client) (sp : String) :
    (s.deleteTorrent sp none).chans = s.chans := by
  unfold Client.deleteTorrent
  by_cases h : (s.torrents.lookup sp).isSome <;> simp [h]

theorem stopFold_chans : ∀ (l : List String) (s : Client),
    (l.foldl (fun s sp => s.deleteTorrent sp none) s).chans = s.chans := by
  intro l
  induction l with
  | nil => intro s; rfl
  | cons a t ih =>
    intro s
    rw [List.foldl_cons, ih, deleteTorrent_none_chans]

theorem stop_chans (bt : Client) : bt.Stop.chans = bt.chans := by
  rw [Client.Stop, stopFold_chans]

/-- C2: with `seedDuration` pointing at 0 ("seed forever"), `Download` leaves
the torrent in place (no removal at completion) and returns a fresh, open
release channel — but no removal is scheduled, and because `Stop()` passes a
nil channel to `deleteTorrent`, the release channel is still unclosed after
`Stop()`; nothing ever closes it, contradicting the documented behaviour that
it closes when `Stop()` is called. -/
theorem download_seedZero_release_unclosed (bt : Client) (sourcePath : String) :
    (bt.downloadEpilogue sourcePath (some 0)).2.2 = [] ∧
    (bt.downloadEpilogue sourcePath (some 0)).1.torrents = bt.torrents ∧
    (bt.downloadEpilogue sourcePath (some 0)).1.chans.getD
      (bt.downloadEpilogue sourcePath (some 0)).2.1 false = false ∧
    (bt.downloadEpilogue sourcePath (some 0)).1.Stop.chans.getD
      (bt.downloadEpilogue sourcePath (some 0)).2.1 false = false := by
  have hepi : bt.downloadEpilogue sourcePath (some 0) =
      ({ bt with chans := bt.chans ++ [false] }, bt.chans.length, []) := by
    rw [Client.downloadEpilogue]
    rw [if_neg (lt_irrefl (0 : Int))]
  have hget : (bt.chans ++ [false]).getD bt.chans.length false = false := by
    rw [List.getD_eq_getElem?_getD, List.getElem?_concat_length]
    rfl
  rw [hepi]
  refine ⟨rfl, rfl, hget, ?_⟩
  rw [stop_chans]
  exact hget

/-- A client whose one torrent reports completion fraction 1, for the C8
counterexample. -/
def btDone : Client :=
  ⟨true, [("t", ⟨⟨"file", .seeding, 1, 0, 0, 0, 0, 0⟩, true⟩)], []⟩

/-- C8, counterexample: the libtorrent completion fraction 1 lies in [0,1],
but the `Status.Progress` reported by `GetStatus` is `fraction * 100` = 100,
outside [0,1]: the claimed range [0,1] is false. -/
theorem getStatus_progress_not_in_unit_interval :
    ((0 : ℚ) ≤ 1 ∧ (1 : ℚ) ≤ 1) ∧
    ∃ s, btDone.GetStatus "t" = .ok s ∧ s.progress = 100 ∧ ¬ s.progress ≤ 1 := by
  refine ⟨⟨by norm_num, le_refl 1⟩, ?_⟩
  refine ⟨_, rfl, ?_, ?_⟩
  · show (1 : ℚ) * 100 = 100
    norm_num
  · show ¬ (1 : ℚ) * 100 ≤ 1
    norm_num

/-- C8 (amended): for every active torrent whose libtorrent completion
fraction lies in [0,1], the `Progress` sampled through `GetStatus` is that
fraction scaled to a percentage, and lies in [0,100]. -/
theorem getStatus_progress_range (bt : Client) (sourcePath : String)
    (t : BtTorrent)
    (hfind : bt.torrents.lookup sourcePath = some t)
    (h0 : 0 ≤ t.handle.progress) (h1 : t.handle.progress ≤ 1) :
    ∃ s, bt.GetStatus sourcePath = .ok s ∧
      s.progress = t.handle.progress * 100 ∧
      0 ≤ s.progress ∧ s.progress ≤ 100 := by
  rw [Client.GetStatus, hfind]
  exact ⟨_, rfl, rfl, mul_nonneg h0 (by norm_num), by nlinarith⟩

/-- A client whose one torrent reports completion fraction 1/2, for the C8
witness. -/
def btHalf : Client :=
  ⟨true, [("t", ⟨⟨"file", .downloading, 1 / 2, 0, 0, 0, 0, 0⟩, false⟩)], []⟩

/-- Witness for C8's amended theorem at completion fraction 1/2. -/
theorem getStatus_progress_range_witness :
    (btHalf.torrents.lookup "t" =
      some ⟨⟨"file", .downloading, 1 / 2, 0, 0, 0, 0, 0⟩, false⟩) ∧
    ((0 : ℚ) ≤ (1 / 2 : ℚ)) ∧ ((1 / 2 : ℚ) ≤ 1) ∧
    ∃ s, btHalf.GetStatus "t" = .ok s ∧
      s.progress = (1 / 2 : ℚ) * 100 ∧
      0 ≤ s.progress ∧ s.progress ≤ 100 :=
  ⟨rfl, by norm_num, by norm_num,
    getStatus_progress_range btHalf "t" _ rfl (by norm_num) (by norm_num)⟩

/- ### `cmd/quayctl/torrent.go`: `downloadTorrents` signal ordering -/

/-- The externally observable events of the goroutines spawned by
`downloadTorrents`, per torrent id: the per-torrent goroutine's
`torrentPaths.Set` (`setPath`), `close(torrentDownloadedChannels[id])`
(`closeDownloaded`), `<-keepSeeding` (`recvSeed`) and
`close(torrentCompletedChannels[id])` (`closeCompleted`); and the waiter
goroutine's `<-torrentCompletedChannels[id]` (`recvCompleted`) and
`close(completed)` (`closeFinished`). -/
inductive TorrentEvent (Id : Type) where
  | setPath (id : Id)
  | closeDownloaded (id : Id)
  | recvSeed (id : Id)
  | closeCompleted (id : Id)
  | recvCompleted (id : Id)
  | closeFinished
deriving Repr, DecidableEq

/-- The program order of the per-torrent goroutine body after `bt.Download`
returns: store the path, close the *downloaded* channel, await the release
channel when seeding, close the *completed* channel. -/
def taskProg {Id : Type} (seed : Bool) (id : Id) : List (TorrentEvent Id) :=
  [.setPath id, .closeDownloaded id] ++
    (if seed then [.recvSeed id] else []) ++ [.closeCompleted id]

/-- The program order of the waiter goroutine: receive every torrent's
*completed* channel in turn, then close the aggregate `completed` channel
(`pool.Stop()` and `bt.Stop()` in between are external effects). -/
def waiterProg {Id : Type} (ids : List Id) : List (TorrentEvent Id) :=
  ids.map .recvCompleted ++ [.closeFinished]

/-- Whether an event belongs to torrent `id`'s goroutine. -/
def isTaskEvent {Id : Type} [DecidableEq Id] (id : Id) : TorrentEvent Id → Bool
  | .setPath j => j = id
  | .closeDownloaded j => j = id
  | .recvSeed j => j = id
  | .closeCompleted j => j = id
  | _ => false

/-- Whether an event belongs to the waiter goroutine. -/
def isWaiterEvent {Id : Type} : TorrentEvent Id → Bool
  | .recvCompleted _ => true
  | .closeFinished => true
  | _ => false

/-- A trace is an interleaving of the goroutines spawned by
`downloadTorrents`: projected on each torrent's goroutine it is that
goroutine's program order; projected on the waiter it is the waiter's program
order; and Go channel semantics forbid the waiter's receive on a completed
channel from happening before that channel is closed. -/
def ValidTrace {Id : Type} [DecidableEq Id] (ids : List Id) (seed : Bool)
    (tr : List (TorrentEvent Id)) : Prop :=
  (∀ id ∈ ids, tr.filter (isTaskEvent id) = taskProg seed id) ∧
  tr.filter isWaiterEvent = waiterProg ids ∧
  (∀ id ∈ ids, TorrentEvent.recvCompleted id ∈ tr →
    TorrentEvent.closeCompleted id ∈ tr ∧
    tr.indexOf (TorrentEvent.closeCompleted id) <
      tr.indexOf (TorrentEvent.recvCompleted id))

instance {Id : Type} [DecidableEq Id] (ids : List Id) (seed : Bool)
    (tr : List (TorrentEvent Id)) : Decidable (ValidTrace ids seed tr) := by
  unfold ValidTrace
  infer_instance

theorem indexOf_lt_of_mem_take {α : Type} [DecidableEq α] (a : α) :
    ∀ (l : List α) (n : Nat), a ∈ l.take n → l.indexOf a < n := by
  intro l
  induction l with
  | nil => intro n h; rw [List.take_nil] at h; cases h
  | cons x xs ih =>
    intro n h
    cases n with
    | zero => cases h
    | succ m =>
      rw [List.take_succ_cons] at h
      by_cases hax : x = a
      · rw [hax, List.indexOf_cons_self]
        omega
      · rcases List.mem_cons.mp h with he | hmem
        · exact absurd he.symm hax
        · rw [List.indexOf_cons_ne xs hax]
          have := ih m hmem
          omega

theorem mem_take_indexOf_succ {α : Type} [DecidableEq α] {a : α} {l : List α}
    (h : a ∈ l) : a ∈ l.take (l.indexOf a + 1) := by
  have hj : l.indexOf a < l.length := List.indexOf_lt_length.mpr h
  have hlen : l.indexOf a < (l.take (l.indexOf a + 1)).length := by
    rw [List.length_take]
    omega
  have hval : (l.take (l.indexOf a + 1))[l.indexOf a] = a := by
    rw [List.getElem_take]
    exact List.getElem_indexOf hj
  exact List.mem_iff_getElem.mpr ⟨l.indexOf a, hlen, hval⟩

theorem indexOf_lt_of_filter_closed {α : Type} [DecidableEq α]
    (tr L : List α) (p : α → Bool) (hf : tr.filter p = L) (a b : α)
    (hab : a ≠ b) (hb : b ∈ L)
    (hclosed : ∀ s, s <+: L → b ∈ s → a ∈ s) :
    a ∈ tr ∧ b ∈ tr ∧ tr.indexOf a < tr.indexOf b := by
  have hbtr : b ∈ tr := by
    rw [← hf] at hb
    exact List.mem_of_mem_filter hb
  have hpb : p b = true := by
    rw [← hf] at hb
    exact List.of_mem_filter hb
  have hbtake : b ∈ tr.take (tr.indexOf b + 1) := mem_take_indexOf_succ hbtr
  have hpref : (tr.take (tr.indexOf b + 1)).filter p <+: L := by
    rw [← hf]
    exact List.IsPrefix.filter p ( List.take_prefix (tr.indexOf b + 1) tr)
  have hbfil : b ∈ (tr.take (tr.indexOf b + 1)).filter p :=
    List.mem_filter.mpr ⟨hbtake, hpb⟩
  have hafil : a ∈ (tr.take (tr.indexOf b + 1)).filter p :=
    hclosed _ hpref hbfil
  have hatake : a ∈ tr.take (tr.indexOf b + 1) := List.mem_of_mem_filter hafil
  have hatr : a ∈ tr := List.take_subset _ tr hatake
  have hidx : tr.indexOf a < tr.indexOf b + 1 :=
    indexOf_lt_of_mem_take a tr (tr.indexOf b + 1) hatake
  have hne : tr.indexOf a ≠ tr.indexOf b := by
    intro heq
    have hja : tr.indexOf a < tr.length := List.indexOf_lt_length.mpr hatr
    have hjb : tr.indexOf b < tr.length := List.indexOf_lt_length.mpr hbtr
    have h1 : tr[tr.indexOf a]? = some a := by
      rw [List.getElem?_eq_getElem hja, List.getElem_indexOf hja]
    have h2 : tr[tr.indexOf b]? = some b := by
      rw [List.getElem?_eq_getElem hjb, List.getElem_indexOf hjb]
    rw [heq, h2] at h1
    exact hab (Option.some_inj.mp h1).symm
  exact ⟨hatr, hbtr, by omega⟩

theorem taskProg_closed_downloaded {Id : Type} [DecidableEq Id] (seed : Bool) (id : Id) :
    ∀ s, s <+: taskProg seed id → TorrentEvent.closeDownloaded id ∈ s →
      TorrentEvent.setPath id ∈ s := by
  intro s hs hmem
  cases seed
  · rw [show taskProg false id =
      [.setPath id, .closeDownloaded id, .closeCompleted id] from rfl] at hs
    rw [← List.mem_inits] at hs
    fin_cases hs <;> simp_all
  · rw [show taskProg true id =
      [.setPath id, .closeDownloaded id, .recvSeed id, .closeCompleted id] from rfl] at hs
    rw [← List.mem_inits] at hs
    fin_cases hs <;> simp_all

theorem taskProg_closed_completed {Id : Type} [DecidableEq Id] (seed : Bool) (id : Id) :
    ∀ s, s <+: taskProg seed id → TorrentEvent.closeCompleted id ∈ s →
      TorrentEvent.closeDownloaded id ∈ s := by
  intro s hs hmem
  cases seed
  · rw [show taskProg false id =
      [.setPath id, .closeDownloaded id, .closeCompleted id] from rfl] at hs
    rw [← List.mem_inits] at hs
    fin_cases hs <;> simp_all
  · rw [show taskProg true id =
      [.setPath id, .closeDownloaded id, .recvSeed id, .closeCompleted id] from rfl] at hs
    rw [← List.mem_inits] at hs
    fin_cases hs <;> simp_all

theorem waiterProg_closed {Id : Type} [DecidableEq Id] (ids : List Id) (id : Id)
    (hid : id ∈ ids) :
    ∀ s, s <+: waiterProg ids → TorrentEvent.closeFinished ∈ s →
      TorrentEvent.recvCompleted id ∈ s := by
  intro s hs hmem
  have hnotin : (TorrentEvent.closeFinished : TorrentEvent Id) ∉
      ids.map TorrentEvent.recvCompleted := by
    intro h
    obtain ⟨x, _, hx⟩ := List.mem_map.mp h
    cases hx
  have hs' := List.prefix_iff_eq_take.mp hs
  have hidx : (waiterProg ids).indexOf (TorrentEvent.closeFinished : TorrentEvent Id) <
      s.length := by
    apply indexOf_lt_of_mem_take
    rw [← hs']
    exact hmem
  have hIdx : (waiterProg ids).indexOf (TorrentEvent.closeFinished : TorrentEvent Id) =
      (ids.map TorrentEvent.recvCompleted).length := by
    rw [waiterProg, List.indexOf_append_of_not_mem hnotin, List.indexOf_cons_self]
    omega
  have hlen : (waiterProg ids).length ≤ s.length := by
    rw [hIdx] at hidx
    rw [waiterProg, List.length_append, List.length_cons, List.length_nil]
    omega
  have hall : s = waiterProg ids := by
    rw [hs', List.take_of_length_le hlen]
  rw [hall, waiterProg]
  exact List.mem_append.mpr (Or.inl (List.mem_map.mpr ⟨id, hid, rfl⟩))

/-- C1: in every valid interleaving of the goroutines spawned by
`downloadTorrents` (any batch of torrent ids, with or without seeding), each
task stores its downloaded file path in the paths map strictly before closing
its *downloaded* channel, closes *downloaded* strictly before its *completed*
channel, and the aggregate *finished* channel closes only after every task's
*completed* channel has closed. -/
theorem downloadTorrents_ordering {Id : Type} [DecidableEq Id] (ids : List Id)
    (seed : Bool) (tr : List (TorrentEvent Id)) (hv : ValidTrace ids seed tr) :
    (TorrentEvent.closeFinished : TorrentEvent Id) ∈ tr ∧
    ∀ id ∈ ids,
      TorrentEvent.setPath id ∈ tr ∧
      TorrentEvent.closeDownloaded id ∈ tr ∧
      TorrentEvent.closeCompleted id ∈ tr ∧
      tr.indexOf (TorrentEvent.setPath id) <
        tr.indexOf (TorrentEvent.closeDownloaded id) ∧
      tr.indexOf (TorrentEvent.closeDownloaded id) <
        tr.indexOf (TorrentEvent.closeCompleted id) ∧
      tr.indexOf (TorrentEvent.closeCompleted id) <
        tr.indexOf (TorrentEvent.closeFinished : TorrentEvent Id) := by
  obtain ⟨htask, hwait, hchan⟩ := hv
  have hcfL : (TorrentEvent.closeFinished : TorrentEvent Id) ∈ waiterProg ids := by
    rw [waiterProg]
    simp
  have hcf : (TorrentEvent.closeFinished : TorrentEvent Id) ∈ tr := by
    rw [← hwait] at hcfL
    exact List.mem_of_mem_filter hcfL
  have hcfL2 : (TorrentEvent.closeFinished : TorrentEvent Id) ∈ waiterProg ids := by
    rw [waiterProg]
    simp
  refine ⟨hcf, ?_⟩
  intro id hid
  obtain ⟨hsp, hcd, h12⟩ := indexOf_lt_of_filter_closed tr (taskProg seed id)
    (isTaskEvent id) (htask id hid) (.setPath id) (.closeDownloaded id)
    (fun h => TorrentEvent.noConfusion h)
    (by cases seed <;> simp [taskProg])
    (taskProg_closed_downloaded seed id)
  obtain ⟨_, hcc, h23⟩ := indexOf_lt_of_filter_closed tr (taskProg seed id)
    (isTaskEvent id) (htask id hid) (.closeDownloaded id) (.closeCompleted id)
    (fun h => TorrentEvent.noConfusion h)
    (by cases seed <;> simp [taskProg])
    (taskProg_closed_completed seed id)
  obtain ⟨hrc, _, h45⟩ := indexOf_lt_of_filter_closed tr (waiterProg ids)
    isWaiterEvent hwait (.recvCompleted id) .closeFinished
    (fun h => TorrentEvent.noConfusion h) hcfL2
    (waiterProg_closed ids id hid)
  obtain ⟨_, h34⟩ := hchan id hid hrc
  exact ⟨hsp, hcd, hcc, h12, h23, by omega⟩

/-- A concrete interleaving of two download tasks and the waiter, for the C1
witness. -/
def traceEx : List (TorrentEvent Nat) :=
  [.setPath 0, .setPath 1, .closeDownloaded 0, .closeCompleted 0, .recvCompleted 0,
   .closeDownloaded 1, .closeCompleted 1, .recvCompleted 1, .closeFinished]

/-- Witness for C1 on a concrete two-task trace without seeding. -/
theorem downloadTorrents_ordering_witness :
    ValidTrace [0, 1] false traceEx ∧
    ((TorrentEvent.closeFinished : TorrentEvent Nat) ∈ traceEx ∧
    ∀ id ∈ [0, 1],
      TorrentEvent.setPath id ∈ traceEx ∧
      TorrentEvent.closeDownloaded id ∈ traceEx ∧
      TorrentEvent.closeCompleted id ∈ traceEx ∧
      traceEx.indexOf (TorrentEvent.setPath id) <
        traceEx.indexOf (TorrentEvent.closeDownloaded id) ∧
      traceEx.indexOf (TorrentEvent.closeDownloaded id) <
        traceEx.indexOf (TorrentEvent.closeCompleted id) ∧
      traceEx.indexOf (TorrentEvent.closeCompleted id) <
        traceEx.indexOf (TorrentEvent.closeFinished : TorrentEvent Nat)) :=
  ⟨by decide, downloadTorrents_ordering [0, 1] false traceEx (by decide)⟩
